import Mathlib

/-!
Shallow embedding of `src/main.rs` of the rusty_matrix digital-rain program.

Randomness is modelled as an explicit stream of natural numbers (`Rng`):
each draw consumes the head of the stream (an exhausted stream draws 0).
`rng.gen_range(lo..=hi)` becomes `genRangeI lo hi`, which returns `none`
exactly when the Rust call would panic (empty range, `lo > hi`).
The `u16 → i16` / `usize → i16` casts of the source (`height as i16`,
`self.cells.len() as i16`) are modelled by `toI16`, which wraps as Rust's
`as` cast does.  Terminal side effects (clearing the screen, drawing) are
recorded as boolean frame effects in the step output.
-/

namespace RustyMatrix

/-- Stream of random draws standing in for `rand::thread_rng()`. -/
abbrev Rng := List Nat

/-- Pull the next raw draw off the stream. -/
def nextNat : Rng → Nat × Rng
  | [] => (0, [])
  | n :: rest => (n, rest)

/-- Wrapping cast to `i16`, as Rust's `as i16` behaves on `u16`/`usize`. -/
def toI16 (n : Nat) : Int :=
  if n % 65536 < 32768 then ((n % 65536 : Nat) : Int)
  else ((n % 65536 : Nat) : Int) - 65536

/-- `rng.gen_range(lo..=hi)` on `i16` bounds: `none` models the panic on an
empty range, otherwise a value in `[lo, hi]`. -/
def genRangeI (lo hi : Int) (rng : Rng) : Option (Int × Rng) :=
  if lo > hi then none
  else
    let p := nextNat rng
    some (lo + (p.1 : Int) % (hi - lo + 1), p.2)

/-- The crossterm colors used by the program. -/
inductive Color where
  | White | Green | DarkGreen | Blue | DarkBlue | Red | DarkRed
  | Cyan | Magenta | DarkMagenta | Black
  deriving DecidableEq, Repr

/-- `struct ColorScheme { head, trail, fade }`. -/
structure ColorScheme where
  head : Color
  trail : Color
  fade : Color
  deriving DecidableEq, Repr

/-- `const THEMES: [ColorScheme; 4]`. -/
def THEMES : List ColorScheme :=
  [ { head := .White, trail := .Green,   fade := .DarkGreen },
    { head := .White, trail := .Blue,    fade := .DarkBlue },
    { head := .White, trail := .Red,     fade := .DarkRed },
    { head := .Cyan,  trail := .Magenta, fade := .DarkMagenta } ]

/-- `const SPEED_DURATIONS: [u64; 10]`. -/
def SPEED_DURATIONS : List Nat := [100, 88, 76, 64, 52, 40, 33, 28, 24, 20]

/-- The poll timeout used in the Matrix arm:
`SPEED_DURATIONS[config.speed_level - 1]`. -/
def pollTimeoutMs (speed_level : Nat) : Nat :=
  SPEED_DURATIONS.getD (speed_level - 1) 0

/-- `struct Cell { char, color, lifetime }` (`lifetime: i16`). -/
structure Cell where
  char : Char
  color : Color
  lifetime : Int
  deriving DecidableEq, Repr

/-- `impl Default for Cell`. -/
def Cell.default : Cell := { char := ' ', color := .Black, lifetime := 0 }

/-- `struct Column { x, cells, head, len, speed, counter }`. -/
structure Column where
  x : Nat
  cells : List Cell
  head : Int
  len : Int
  speed : Int
  counter : Int
  deriving DecidableEq, Repr

/-- `Column::new(x, height)`: `len` is drawn from `5..=height as i16 / 2`
(the draw panics, i.e. returns `none`, when the range is empty), `speed`
from `1..=4`. -/
def Column.new (x height : Nat) (rng : Rng) : Option (Column × Rng) :=
  match genRangeI 5 ((toI16 height).tdiv 2) rng with
  | none => none
  | some (len, rng2) =>
    match genRangeI 1 4 rng2 with
    | none => none
    | some (speed, rng3) =>
      some ({ x := x, cells := List.replicate height Cell.default,
              head := -1, len := len, speed := speed, counter := 0 }, rng3)

/-- `Column::reset`: re-randomize `head := -1`, `len`, `speed`, `counter := 0`;
`height` is `self.cells.len() as i16`. -/
def Column.reset (c : Column) (rng : Rng) : Option (Column × Rng) :=
  match genRangeI 5 ((toI16 c.cells.length).tdiv 2) rng with
  | none => none
  | some (len, rng2) =>
    match genRangeI 1 4 rng2 with
    | none => none
    | some (speed, rng3) =>
      some ({ c with head := -1, len := len, speed := speed, counter := 0 }, rng3)

/-- `get_random_char`: uniform draw from the character set
(`char_set[rng.gen_range(0..char_set.len())]`); panics (`none`) on an
empty set. -/
def get_random_char (char_set : List Char) (rng : Rng) : Option (Char × Rng) :=
  if h : char_set.length = 0 then none
  else
    let p := nextNat rng
    some (char_set.get ⟨p.1 % char_set.length, Nat.mod_lt _ (Nat.pos_of_ne_zero h)⟩, p.2)

/-- First per-cell loop of `Column::update`: decrement positive lifetimes
and blank the glyph when the lifetime reaches 0. -/
def decayCell (cell : Cell) : Cell :=
  if cell.lifetime > 0 then
    if cell.lifetime - 1 = 0 then { cell with lifetime := cell.lifetime - 1, char := ' ' }
    else { cell with lifetime := cell.lifetime - 1 }
  else cell

/-- Second per-cell loop of `Column::update`: recolor every cell relative to
`len - 3`. -/
def recolorCell (len : Int) (colors : ColorScheme) (cell : Cell) : Cell :=
  if cell.lifetime > len - 3 then { cell with color := colors.trail }
  else { cell with color := colors.fade }

/-- `Column::update(colors, language_key)`: throttle on `counter`/`speed`,
advance `head`, decay, recolor, write the head cell when on-screen, and
reset once `head >= cells.len() as i16 + len`. -/
def Column.update (c : Column) (colors : ColorScheme) (char_set : List Char)
    (rng : Rng) : Option (Column × Rng) :=
  if c.counter + 1 < c.speed then
    some ({ c with counter := c.counter + 1 }, rng)
  else
    let head := c.head + 1
    let cells := (c.cells.map decayCell).map (recolorCell c.len colors)
    if 0 ≤ head ∧ head < toI16 c.cells.length then
      match get_random_char char_set rng with
      | none => none
      | some (ch, rng2) =>
        let newCell : Cell := { char := ch, color := colors.head, lifetime := c.len }
        let c2 : Column :=
          { c with
            counter := 0,
            head := head,
            cells := cells.set head.toNat newCell }
        if head ≥ toI16 c.cells.length + c.len then c2.reset rng2 else some (c2, rng2)
    else
      let c2 : Column := { c with counter := 0, head := head, cells := cells }
      if head ≥ toI16 c.cells.length + c.len then c2.reset rng else some (c2, rng)

/-- Run `n` successive `update` calls, threading the rng. -/
def runUpdates (c : Column) (n : Nat) (colors : ColorScheme) (char_set : List Char)
    (rng : Rng) : Option (Column × Rng) :=
  match n with
  | 0 => some (c, rng)
  | n + 1 =>
    match c.update colors char_set rng with
    | none => none
    | some (c2, rng2) => runUpdates c2 n colors char_set rng2

/-- The loop `for i in lo..=hi { if let Some(c) = std::char::from_u32(i) { push(c) } }`
used to build the CJK sets: every valid scalar value in the inclusive range. -/
def charsFromRange (lo hi : Nat) : List Char :=
  ((List.range (hi + 1 - lo)).map (fun i => lo + i)).filterMap
    (fun n => if h : n.isValidChar then some (Char.ofNatAux n h) else none)

/-- The punctuation of the English set, by code point
(`!@#$%^&*()_+-=[]` then braces, pipe, `;:',.<>/?~` and backquote). -/
def englishPunctuation : List Char :=
  [33, 64, 35, 36, 37, 94, 38, 42, 40, 41, 95, 43, 45, 61, 91, 93, 123, 125,
   124, 59, 58, 39, 44, 46, 60, 62, 47, 63, 96, 126].map Char.ofNat

/-- The "English" character set: `a..=z`, `A..=Z`, `0..=9`, punctuation. -/
def englishChars : List Char :=
  ((List.range 26).map (fun i => Char.ofNat (97 + i))) ++
  ((List.range 26).map (fun i => Char.ofNat (65 + i))) ++
  ((List.range 10).map (fun i => Char.ofNat (48 + i))) ++
  englishPunctuation

/-- "Traditional Chinese": scalar values `0x4E00..=0x9FA5`. -/
def traditionalChineseChars : List Char := charsFromRange 0x4E00 0x9FA5

/-- "Simplified Chinese": scalar values `0x4E00..=0x9FFF`. -/
def simplifiedChineseChars : List Char := charsFromRange 0x4E00 0x9FFF

/-- `ALL_CHAR_SETS`: the registry of named character sets. -/
def ALL_CHAR_SETS : List (String × List Char) :=
  [("English", englishChars),
   ("Traditional Chinese", traditionalChineseChars),
   ("Simplified Chinese", simplifiedChineseChars)]

/-- `struct Config { theme_index, speed_level, language_index }`. -/
structure Config where
  theme_index : Nat
  speed_level : Nat
  language_index : Nat
  deriving DecidableEq, Repr

/-- `enum AppState { Matrix, Paused, Config }`. -/
inductive AppState where
  | Matrix | Paused | Config
  deriving DecidableEq, Repr

/-- The key codes the program inspects. -/
inductive KeyCode where
  | char (c : Char)
  | esc | left | right | up | down
  deriving DecidableEq, Repr

/-- The mutable state of `main`'s loop: the columns, the mode, the config. -/
structure App where
  columns : List Column
  app_state : AppState
  config : Config
  deriving DecidableEq, Repr

/-- The key `match` of the `AppState::Matrix` arm: `none` means `break`
(quit); otherwise the next `app_state`. -/
def handleMatrixKey (s : AppState) (k : KeyCode) : Option AppState :=
  match k with
  | .char c =>
    if c = 'q' then none
    else if c = ' ' then some .Paused
    else if c = 'c' then some .Config
    else some s
  | .esc => none
  | _ => some s

/-- `for col in columns.iter_mut() { col.update(..) }`, threading the rng. -/
def updateColumns (cols : List Column) (colors : ColorScheme) (char_set : List Char)
    (rng : Rng) : Option (List Column × Rng) :=
  match cols with
  | [] => some ([], rng)
  | c :: rest =>
    match c.update colors char_set rng with
    | none => none
    | some (c2, rng2) =>
      match updateColumns rest colors char_set rng2 with
      | none => none
      | some (rest2, rng3) => some (c2 :: rest2, rng3)

/-- Screen side effects of one Matrix-arm iteration: whether
`Clear(ClearType::All)` ran and whether the columns were drawn. -/
structure FrameEffects where
  cleared : Bool
  drew : Bool
  deriving DecidableEq, Repr

/-- Result of one iteration of the `AppState::Matrix` arm. -/
inductive MatrixOutcome where
  | quit
  | panicked
  | cont (app : App) (rng : Rng) (effects : FrameEffects)
  deriving DecidableEq, Repr

/-- One iteration of the `AppState::Matrix` arm of `main`'s loop.
`key = none` models the poll timing out with no event.  After the input
`match` (unless it broke), the arm unconditionally clears the screen, looks
up the theme and language, updates every column, and draws. -/
def matrixStep (app : App) (key : Option KeyCode) (rng : Rng) : MatrixOutcome :=
  let stOpt : Option AppState :=
    match key with
    | none => some app.app_state
    | some k => handleMatrixKey app.app_state k
  match stOpt with
  | none => .quit
  | some st =>
    match THEMES.get? app.config.theme_index,
          (ALL_CHAR_SETS.map Prod.snd).get? app.config.language_index with
    | some colors, some char_set =>
      match updateColumns app.columns colors char_set rng with
      | none => .panicked
      | some (cols2, rng2) =>
        .cont { app with columns := cols2, app_state := st } rng2
          { cleared := true, drew := true }
    | _, _ => .panicked

/-- The `'+'`/`'='` and `'-'` handlers of the Config arm. -/
inductive SpeedOp where
  | inc | dec
  deriving DecidableEq, Repr

/-- `(speed_level + 1).min(10)` / `(speed_level - 1).max(1)` (usize). -/
def applySpeedOp (s : Nat) : SpeedOp → Nat
  | .inc => min (s + 1) 10
  | .dec => max (s - 1) 1

/-- A sequence of speed key presses in the Config menu. -/
def applySpeedOps (s : Nat) (ops : List SpeedOp) : Nat :=
  ops.foldl applySpeedOp s

/-- The Right/Left arrow handlers of the Config arm. -/
inductive ThemeOp where
  | next | prev
  deriving DecidableEq, Repr

/-- `Right`: `(theme_index + 1) % THEMES.len()`;
`Left`: `if theme_index == 0 { THEMES.len() - 1 } else { theme_index - 1 }`. -/
def applyThemeOp (t : Nat) : ThemeOp → Nat
  | .next => (t + 1) % THEMES.length
  | .prev => if t = 0 then THEMES.length - 1 else t - 1

/-- A sequence of theme key presses in the Config menu. -/
def applyThemeOps (t : Nat) (ops : List ThemeOp) : Nat :=
  ops.foldl applyThemeOp t

/-- States a column can reach from `c₀` by `update` calls (with any theme and
any registered character set, as `main` supplies them) and `reset` calls. -/
inductive ReachableFrom : Column → Column → Prop where
  | refl (c : Column) : ReachableFrom c c
  | update {c0 c1 c2 : Column} {colors : ColorScheme} {cs : List Char}
      {rng rng2 : Rng} (h0 : ReachableFrom c0 c1)
      (hcs : cs ∈ ALL_CHAR_SETS.map Prod.snd)
      (h : c1.update colors cs rng = some (c2, rng2)) : ReachableFrom c0 c2
  | reset {c0 c1 c2 : Column} {rng rng2 : Rng} (h0 : ReachableFrom c0 c1)
      (h : c1.reset rng = some (c2, rng2)) : ReachableFrom c0 c2

/-- The spec's cell invariant: zero remaining lifetime iff blank glyph. -/
def CellInv (cell : Cell) : Prop := cell.lifetime = 0 ↔ cell.char = ' '

/-- Column-level invariant carried through the reachability induction. -/
def ColumnInv (c : Column) : Prop := 0 < c.len ∧ ∀ cell ∈ c.cells, CellInv cell

/-- Projection: the `app_state` of a continuing Matrix-arm outcome. -/
def MatrixOutcome.contState : MatrixOutcome → Option AppState
  | .cont a _ _ => some a.app_state
  | _ => none

/-- Projection: the columns of a continuing Matrix-arm outcome. -/
def MatrixOutcome.contColumns : MatrixOutcome → Option (List Column)
  | .cont a _ _ => some a.columns
  | _ => none

/-- Projection: whether a continuing Matrix-arm outcome cleared the screen. -/
def MatrixOutcome.contCleared : MatrixOutcome → Option Bool
  | .cont _ _ e => some e.cleared
  | _ => none

/-! ## Concrete scenario data -/

/-- The first theme of `THEMES` (Classic Green). -/
def theme0 : ColorScheme := { head := .White, trail := .Green, fade := .DarkGreen }

/-- A small three-row column (fresh, `speed = 1`). -/
def sampleColumn : Column :=
  { x := 0, cells := List.replicate 3 Cell.default, head := -1, len := 5,
    speed := 1, counter := 0 }

/-- A 20-row mid-stream column for the reset scenario. -/
def sampleColumn20 : Column :=
  { x := 1, cells := List.replicate 20 Cell.default, head := 7, len := 10,
    speed := 2, counter := 1 }

/-- `sampleColumn20` after `reset` with an exhausted rng. -/
def resetColumn20 : Column :=
  { sampleColumn20 with head := -1, len := 5, speed := 1, counter := 0 }

/-- The fresh column `Column::new(0, 20)` yields on the draws `[5, 0]`
(`len = 10`, `speed = 1`). -/
def newCol20 : Column :=
  { x := 0, cells := List.replicate 20 Cell.default, head := -1, len := 10,
    speed := 1, counter := 0 }

/-- A one-column app in Matrix mode for the controller scenarios. -/
def app1 : App :=
  { columns := [sampleColumn], app_state := .Matrix,
    config := { theme_index := 0, speed_level := 5, language_index := 0 } }

/-- A column-free app in Matrix mode, for instantiating controller theorems. -/
def matrixApp : App :=
  { columns := [], app_state := .Matrix,
    config := { theme_index := 0, speed_level := 5, language_index := 0 } }

/-- `matrixApp` after a pause-toggle iteration. -/
def pausedApp : App :=
  { matrixApp with app_state := .Paused }

/-! ## Helper lemmas -/

/-- A successful `gen_range(lo..=hi)` draw lies in `[lo, hi]`. -/
theorem genRangeI_le {lo hi v : Int} {rng rng2 : Rng}
    (h : genRangeI lo hi rng = some (v, rng2)) : lo ≤ v ∧ v ≤ hi := by
  unfold genRangeI at h
  split at h
  · exact absurd h (by simp)
  · next hle =>
    simp only [Option.some.injEq, Prod.mk.injEq] at h
    obtain ⟨rfl, rfl⟩ := h
    have hpos : 0 < hi - lo + 1 := by omega
    have h1 : 0 ≤ ((nextNat rng).1 : Int) % (hi - lo + 1) :=
      Int.emod_nonneg _ (by omega)
    have h2 : ((nextNat rng).1 : Int) % (hi - lo + 1) < hi - lo + 1 :=
      Int.emod_lt_of_pos _ hpos
    omega

/-- `gen_range` succeeds exactly on non-empty ranges. -/
theorem genRangeI_isSome (lo hi : Int) (rng : Rng) (h : lo ≤ hi) :
    (genRangeI lo hi rng).isSome = true := by
  unfold genRangeI
  rw [if_neg (by omega)]
  rfl

/-- What `Column::reset` does: only `head`, `len`, `speed`, `counter` move;
a successful draw gives `5 ≤ len`. -/
theorem reset_spec {c c2 : Column} {rng rng2 : Rng}
    (h : c.reset rng = some (c2, rng2)) :
    c2.cells = c.cells ∧ c2.x = c.x ∧ c2.head = -1 ∧ c2.counter = 0 ∧
    5 ≤ c2.len ∧ 1 ≤ c2.speed ∧ c2.speed ≤ 4 := by
  unfold Column.reset at h
  cases hg : genRangeI 5 ((toI16 c.cells.length).tdiv 2) rng with
  | none => rw [hg] at h; exact absurd h (by simp)
  | some p =>
    obtain ⟨len, rngA⟩ := p
    rw [hg] at h
    dsimp only at h
    cases hg2 : genRangeI 1 4 rngA with
    | none => rw [hg2] at h; exact absurd h (by simp)
    | some q =>
      obtain ⟨speed, rngB⟩ := q
      rw [hg2] at h
      dsimp only at h
      simp only [Option.some.injEq, Prod.mk.injEq] at h
      obtain ⟨rfl, rfl⟩ := h
      have h1 := genRangeI_le hg
      have h2 := genRangeI_le hg2
      exact ⟨rfl, rfl, rfl, rfl, h1.1, h2.1, h2.2⟩

/-- What `Column::new` builds: blank cells, `head = -1`, `5 ≤ len`. -/
theorem new_spec {x height : Nat} {rng : Rng} {c : Column} {rng2 : Rng}
    (h : Column.new x height rng = some (c, rng2)) :
    c.cells = List.replicate height Cell.default ∧ c.x = x ∧ c.head = -1 ∧
    c.counter = 0 ∧ 5 ≤ c.len ∧ 1 ≤ c.speed ∧ c.speed ≤ 4 := by
  unfold Column.new at h
  cases hg : genRangeI 5 ((toI16 height).tdiv 2) rng with
  | none => rw [hg] at h; exact absurd h (by simp)
  | some p =>
    obtain ⟨len, rngA⟩ := p
    rw [hg] at h
    dsimp only at h
    cases hg2 : genRangeI 1 4 rngA with
    | none => rw [hg2] at h; exact absurd h (by simp)
    | some q =>
      obtain ⟨speed, rngB⟩ := q
      rw [hg2] at h
      dsimp only at h
      simp only [Option.some.injEq, Prod.mk.injEq] at h
      obtain ⟨rfl, rfl⟩ := h
      have h1 := genRangeI_le hg
      have h2 := genRangeI_le hg2
      exact ⟨rfl, rfl, rfl, rfl, h1.1, h2.1, h2.2⟩

/-- A successfully drawn random glyph belongs to the character set. -/
theorem get_random_char_mem {cs : List Char} {rng rng2 : Rng} {ch : Char}
    (h : get_random_char cs rng = some (ch, rng2)) : ch ∈ cs := by
  unfold get_random_char at h
  split at h
  · exact absurd h (by simp)
  · simp only [Option.some.injEq, Prod.mk.injEq] at h
    obtain ⟨rfl, rfl⟩ := h
    exact List.get_mem _ _ _

/-- `get_random_char` succeeds on a non-empty set. -/
theorem get_random_char_isSome {cs : List Char} (rng : Rng) (h : cs ≠ []) :
    (get_random_char cs rng).isSome = true := by
  unfold get_random_char
  have hne : cs.length ≠ 0 := fun h0 => h (List.length_eq_zero.mp h0)
  rw [dif_neg hne]
  rfl

/-- The decay pass preserves the cell invariant. -/
theorem decayCell_inv {cell : Cell} (h : CellInv cell) : CellInv (decayCell cell) := by
  unfold CellInv decayCell at *
  split_ifs with h1 h2
  · simpa using h2
  · simp only []
    constructor
    · intro h0; exact absurd h0 h2
    · intro hblank
      have := h.mpr hblank
      omega
  · exact h

/-- The recolor pass only touches the color, so it preserves the invariant. -/
theorem recolorCell_inv {cell : Cell} {len : Int} {colors : ColorScheme}
    (h : CellInv cell) : CellInv (recolorCell len colors cell) := by
  unfold CellInv recolorCell at *
  split_ifs <;> exact h

/-- `Char.ofNatAux` round-trips its code point. -/
theorem ofNatAux_toNat {n : Nat} (h : n.isValidChar) : (Char.ofNatAux n h).toNat = n := by
  simp [Char.ofNatAux, Char.toNat, UInt32.toNat, UInt32.ofNatCore, BitVec.ofNatLt]

/-- Every glyph produced by a CJK range loop has code point at least `lo`. -/
theorem le_toNat_of_mem_charsFromRange {c : Char} {lo hi : Nat}
    (h : c ∈ charsFromRange lo hi) : lo ≤ c.toNat := by
  unfold charsFromRange at h
  simp only [List.mem_filterMap, List.mem_map, List.mem_range] at h
  obtain ⟨n, ⟨i, hilt, rfl⟩, hc⟩ := h
  split at hc
  · obtain rfl := Option.some.inj hc
    rw [ofNatAux_toNat]
    omega
  · exact absurd hc (by simp)

/-- None of the registered character sets contains the blank `' '`. -/
theorem space_notMem_registered {cs : List Char}
    (h : cs ∈ ALL_CHAR_SETS.map Prod.snd) : ' ' ∉ cs := by
  have hsp : (' ' : Char).toNat = 32 := rfl
  have hmap : List.map Prod.snd ALL_CHAR_SETS
      = [englishChars, traditionalChineseChars, simplifiedChineseChars] := by
    unfold ALL_CHAR_SETS
    simp only [List.map_cons, List.map_nil]
  rw [hmap] at h
  simp only [List.mem_cons, List.not_mem_nil, or_false] at h
  rcases h with h1 | h1 | h1
  · rw [h1]; decide
  · rw [h1]
    intro hm
    have hle := le_toNat_of_mem_charsFromRange (hm : ' ' ∈ charsFromRange 0x4E00 0x9FA5)
    omega
  · rw [h1]
    intro hm
    have hle := le_toNat_of_mem_charsFromRange (hm : ' ' ∈ charsFromRange 0x4E00 0x9FFF)
    omega

/-- Early-return case of `update`: the per-column speed throttle. -/
theorem update_early {c : Column} {colors : ColorScheme} {cs : List Char} {rng : Rng}
    (h : c.counter + 1 < c.speed) :
    c.update colors cs rng = some ({ c with counter := c.counter + 1 }, rng) := by
  unfold Column.update
  rw [if_pos h]

/-- `update` preserves the column invariant. -/
theorem update_inv {c c2 : Column} {colors : ColorScheme} {cs : List Char}
    {rng rng2 : Rng} (hc : ColumnInv c) (hcs : ' ' ∉ cs)
    (h : c.update colors cs rng = some (c2, rng2)) : ColumnInv c2 := by
  obtain ⟨hlen, hinv⟩ := hc
  unfold Column.update at h
  split at h
  · simp only [Option.some.injEq, Prod.mk.injEq] at h
    obtain ⟨rfl, rfl⟩ := h
    exact ⟨hlen, hinv⟩
  · dsimp only at h
    have hmapinv : ∀ cell ∈ (c.cells.map decayCell).map (recolorCell c.len colors),
        CellInv cell := by
      intro cell hcell
      simp only [List.mem_map] at hcell
      obtain ⟨b, ⟨a, ha, rfl⟩, rfl⟩ := hcell
      exact recolorCell_inv (decayCell_inv (hinv a ha))
    split at h
    · cases hgc : get_random_char cs rng with
      | none => rw [hgc] at h; exact absurd h (by simp)
      | some p =>
        obtain ⟨ch, rngA⟩ := p
        rw [hgc] at h
        dsimp only at h
        have hch : ch ∈ cs := get_random_char_mem hgc
        have hnew : CellInv { char := ch, color := colors.head, lifetime := c.len } :=
          Iff.intro (fun h0 => absurd h0 (by simp only []; omega))
            (fun hb => absurd (hb ▸ hch) hcs)
        have hsetinv : ∀ cell ∈ ((c.cells.map decayCell).map
            (recolorCell c.len colors)).set (c.head + 1).toNat
            { char := ch, color := colors.head, lifetime := c.len }, CellInv cell := by
          intro cell hcell
          rcases List.mem_or_eq_of_mem_set hcell with h1 | rfl
          · exact hmapinv _ h1
          · exact hnew
        split at h
        · obtain ⟨hcells, _, _, _, hl5, _, _⟩ := reset_spec h
          refine ⟨by omega, ?_⟩
          rw [hcells]
          exact hsetinv
        · simp only [Option.some.injEq, Prod.mk.injEq] at h
          obtain ⟨rfl, rfl⟩ := h
          exact ⟨hlen, hsetinv⟩
    · split at h
      · obtain ⟨hcells, _, _, _, hl5, _, _⟩ := reset_spec h
        refine ⟨by omega, ?_⟩
        rw [hcells]
        exact hmapinv
      · simp only [Option.some.injEq, Prod.mk.injEq] at h
        obtain ⟨rfl, rfl⟩ := h
        exact ⟨hlen, hmapinv⟩

/-- `reset` preserves the column invariant (cells untouched, fresh `len ≥ 5`). -/
theorem reset_inv {c c2 : Column} {rng rng2 : Rng} (hc : ColumnInv c)
    (h : c.reset rng = some (c2, rng2)) : ColumnInv c2 := by
  obtain ⟨hcells, _, _, _, hl5, _, _⟩ := reset_spec h
  exact ⟨by omega, hcells ▸ hc.2⟩

/-- The column invariant holds in every reachable state. -/
theorem reachable_inv {c0 c : Column} (h : ReachableFrom c0 c)
    (h0 : ColumnInv c0) : ColumnInv c := by
  induction h with
  | refl => exact h0
  | update _ hcs hu ih => exact update_inv ih (space_notMem_registered hcs) hu
  | reset _ hr ih => exact reset_inv ih hr

/-- A fresh column satisfies the invariant. -/
theorem new_inv {x height : Nat} {rng rng2 : Rng} {c : Column}
    (h : Column.new x height rng = some (c, rng2)) : ColumnInv c := by
  obtain ⟨hcells, _, _, _, hl5, _, _⟩ := new_spec h
  refine ⟨by omega, ?_⟩
  intro cell hcell
  rw [hcells] at hcell
  obtain rfl := List.eq_of_mem_replicate hcell
  exact Iff.intro (fun _ => rfl) (fun _ => rfl)

/-- `runUpdates` on a successful first step. -/
theorem runUpdates_step {c c2 : Column} {colors : ColorScheme} {cs : List Char}
    {rng rng2 : Rng} (n : Nat) (h : c.update colors cs rng = some (c2, rng2)) :
    runUpdates c (n + 1) colors cs rng = runUpdates c2 n colors cs rng2 := by
  conv_lhs => rw [runUpdates]
  rw [h]

/-- `runUpdates` at zero. -/
theorem runUpdates_zero {c : Column} {colors : ColorScheme} {cs : List Char}
    {rng : Rng} : runUpdates c 0 colors cs rng = some (c, rng) := rfl

/-- Advancing case of `update` when the advance does not trigger a reset:
`head` moves one row down, `counter` resets, everything else of the column
header is kept. -/
theorem update_advance {c : Column} {colors : ColorScheme} {cs : List Char} {rng : Rng}
    (hge : ¬ c.counter + 1 < c.speed) (hcs : cs ≠ [])
    (hnr : ¬ c.head + 1 ≥ toI16 c.cells.length + c.len) :
    ∃ c2 rng2, c.update colors cs rng = some (c2, rng2) ∧ c2.head = c.head + 1 ∧
      c2.counter = 0 ∧ c2.len = c.len ∧ c2.speed = c.speed ∧ c2.x = c.x := by
  unfold Column.update
  rw [if_neg hge]
  dsimp only
  by_cases hin : 0 ≤ c.head + 1 ∧ c.head + 1 < toI16 c.cells.length
  · rw [if_pos hin]
    cases hgc : get_random_char cs rng with
    | none =>
      have hs := get_random_char_isSome rng hcs
      rw [hgc] at hs
      exact absurd hs (by simp)
    | some p =>
      obtain ⟨ch, rngA⟩ := p
      dsimp only
      rw [if_neg hnr]
      exact ⟨_, _, rfl, rfl, rfl, rfl, rfl, rfl⟩
  · rw [if_neg hin]
    rw [if_neg hnr]
    exact ⟨_, _, rfl, rfl, rfl, rfl, rfl, rfl⟩

/-- `toI16` is the identity below `32768`. -/
theorem toI16_of_le {n : Nat} (h : n ≤ 32767) : toI16 n = (n : Int) := by
  unfold toI16
  have hm : n % 65536 = n := Nat.mod_eq_of_lt (by omega)
  rw [hm, if_pos (by omega)]

/-! ## Claims -/

/-- C5: starting from any `speed_level` in `[1,10]`, any finite sequence of
Config-menu increase/decrease operations keeps it in `[1,10]`; increase at
10 stays 10 and decrease at 1 stays 1 (clamped, never wrapping). -/
theorem c5_speed_level_clamped :
    (∀ s : Nat, 1 ≤ s → s ≤ 10 → ∀ ops : List SpeedOp,
      1 ≤ applySpeedOps s ops ∧ applySpeedOps s ops ≤ 10) ∧
    applySpeedOp 10 SpeedOp.inc = 10 ∧ applySpeedOp 1 SpeedOp.dec = 1 := by
  refine ⟨?_, rfl, rfl⟩
  intro s h1 h10 ops
  induction ops generalizing s with
  | nil => exact ⟨h1, h10⟩
  | cons op rest ih =>
    have hstep : 1 ≤ applySpeedOp s op ∧ applySpeedOp s op ≤ 10 := by
      cases op <;> simp only [applySpeedOp] <;> omega
    exact ih _ hstep.1 hstep.2

/-- Witness for C5 at `speed_level = 5` with one increase and one decrease. -/
theorem c5_witness :
    1 ≤ applySpeedOps 5 [SpeedOp.inc, SpeedOp.dec] ∧
    applySpeedOps 5 [SpeedOp.inc, SpeedOp.dec] ≤ 10 :=
  c5_speed_level_clamped.1 5 (by decide) (by decide) [SpeedOp.inc, SpeedOp.dec]

/-- C6: `theme_index` stays in `[0, THEMES.length)` under any sequence of
next/previous theme operations, wraps exactly at the boundaries, and
`THEMES.length` (= 4) consecutive next operations are the identity. -/
theorem c6_theme_index_wraps :
    (∀ t : Nat, t < THEMES.length → ∀ ops : List ThemeOp,
      applyThemeOps t ops < THEMES.length) ∧
    applyThemeOp (THEMES.length - 1) ThemeOp.next = 0 ∧
    applyThemeOp 0 ThemeOp.prev = THEMES.length - 1 ∧
    THEMES.length = 4 ∧
    (∀ t : Nat, t < THEMES.length →
      applyThemeOps t [ThemeOp.next, ThemeOp.next, ThemeOp.next, ThemeOp.next] = t) := by
  refine ⟨?_, by decide, by decide, by decide, by decide⟩
  intro t ht ops
  induction ops generalizing t with
  | nil => exact ht
  | cons op rest ih =>
    have hstep : applyThemeOp t op < THEMES.length := by
      cases op
      · exact Nat.mod_lt _ (by decide)
      · simp only [applyThemeOp]
        split
        · decide
        · omega
    exact ih _ hstep

/-- Witness for C6: four next-theme presses from index 2 return to 2. -/
theorem c6_witness :
    applyThemeOps 2 [ThemeOp.next, ThemeOp.next, ThemeOp.next, ThemeOp.next] = 2 :=
  c6_theme_index_wraps.2.2.2.2 2 (by decide)

/-- C8: the speed table maps level 1 to 100 ms and level 10 to 20 ms, and
is strictly decreasing across levels 1 through 10. -/
theorem c8_speed_duration_table :
    pollTimeoutMs 1 = 100 ∧ pollTimeoutMs 10 = 20 ∧
    ∀ l : Nat, l < 10 → 1 ≤ l → pollTimeoutMs (l + 1) < pollTimeoutMs l := by
  decide

/-- Witness for C8 at level 3. -/
theorem c8_witness : pollTimeoutMs 4 < pollTimeoutMs 3 :=
  c8_speed_duration_table.2.2 3 (by decide) (by decide)

/-- C10: `reset` leaves the cells array (and `x`) entirely unchanged; only
the stream header (`head`, `len`, `speed`, `counter`) moves. -/
theorem c10_reset_touches_only_header (c : Column) (rng : Rng) (c2 : Column)
    (rng2 : Rng) (h : c.reset rng = some (c2, rng2)) :
    c2.cells = c.cells ∧ c2.x = c.x ∧ c2.head = -1 ∧ c2.counter = 0 := by
  obtain ⟨h1, h2, h3, h4, _, _, _⟩ := reset_spec h
  exact ⟨h1, h2, h3, h4⟩

/-- Witness for C10 on a concrete mid-stream 20-row column. -/
theorem c10_witness : resetColumn20.cells = sampleColumn20.cells :=
  (c10_reset_touches_only_header sampleColumn20 [] resetColumn20 [] (by decide)).1

/-- C4: height-20 column with `len = 10`, `speed = 1` (drawn from `[5, 0]`):
after 1 update `head = 0` and cell 0 is head-colored with lifetime 10;
after 30 updates `head = 29` (no reset yet); the 31st update resets
(`head` back to −1). -/
theorem c4_reset_fires_at_update_31 :
    (Column.new 0 20 [5, 0]).map (fun p => (p.1.len, p.1.speed)) = some (10, 1) ∧
    ((Column.new 0 20 [5, 0]).bind
        (fun p => runUpdates p.1 1 theme0 englishChars p.2)).map
      (fun p => (p.1.head, (p.1.cells.getD 0 Cell.default).color,
        (p.1.cells.getD 0 Cell.default).lifetime)) = some (0, theme0.head, 10) ∧
    ((Column.new 0 20 [5, 0]).bind
        (fun p => runUpdates p.1 30 theme0 englishChars p.2)).map
      (fun p => p.1.head) = some 29 ∧
    ((Column.new 0 20 [5, 0]).bind
        (fun p => runUpdates p.1 31 theme0 englishChars p.2)).map
      (fun p => p.1.head) = some (-1) := by
  refine ⟨by decide, by decide, by decide, by decide⟩

/-- C9 counterexample: terminal height `32768` is at least 10, yet the
`height as i16` cast wraps negative, the range `5..=height as i16 / 2`
is empty, and the creation draw fails. -/
theorem c9_counterexample : 10 ≤ 32768 ∧ Column.new 0 32768 [] = none := by
  refine ⟨by omega, by decide⟩

/-- C9 (amended): creation and reset draw `len` from `5..=height as i16 / 2`;
the draw succeeds for every height in `[10, 32767]` and fails below 10
(for heights `≥ 32768` the `i16` cast wraps negative and the draw also
fails, as the counterexample shows). -/
theorem c9_stream_range_validity (x height : Nat) (rng : Rng) :
    (10 ≤ height → height ≤ 32767 → (Column.new x height rng).isSome = true) ∧
    (height < 10 → Column.new x height rng = none) ∧
    ∀ c : Column,
      (10 ≤ c.cells.length → c.cells.length ≤ 32767 →
        (c.reset rng).isSome = true) ∧
      (c.cells.length < 10 → c.reset rng = none) := by
  refine ⟨?_, ?_, ?_⟩
  · intro h10 h32
    have ht : toI16 height = (height : Int) := toI16_of_le (by omega)
    have hs : (genRangeI 5 ((toI16 height).tdiv 2) rng).isSome = true := by
      rw [ht]
      have htd : ((height : Int)).tdiv 2 = ((height / 2 : Nat) : Int) := rfl
      rw [htd]
      exact genRangeI_isSome _ _ rng (by omega)
    obtain ⟨p, hg⟩ := Option.isSome_iff_exists.mp hs
    obtain ⟨len, rngA⟩ := p
    obtain ⟨q, hg2⟩ := Option.isSome_iff_exists.mp
      (genRangeI_isSome 1 4 rngA (by omega))
    obtain ⟨speed, rngB⟩ := q
    unfold Column.new
    rw [hg]
    dsimp only
    rw [hg2]
    rfl
  · intro hlt
    have ht : toI16 height = (height : Int) := toI16_of_le (by omega)
    unfold Column.new genRangeI
    rw [ht]
    have htd : ((height : Int)).tdiv 2 = ((height / 2 : Nat) : Int) := rfl
    rw [htd, if_pos (by omega)]
  · intro c
    constructor
    · intro h10 h32
      have ht : toI16 c.cells.length = (c.cells.length : Int) := toI16_of_le (by omega)
      have hs : (genRangeI 5 ((toI16 c.cells.length).tdiv 2) rng).isSome = true := by
        rw [ht]
        have htd : ((c.cells.length : Int)).tdiv 2
            = ((c.cells.length / 2 : Nat) : Int) := rfl
        rw [htd]
        exact genRangeI_isSome _ _ rng (by omega)
      obtain ⟨p, hg⟩ := Option.isSome_iff_exists.mp hs
      obtain ⟨len, rngA⟩ := p
      obtain ⟨q, hg2⟩ := Option.isSome_iff_exists.mp
        (genRangeI_isSome 1 4 rngA (by omega))
      obtain ⟨speed, rngB⟩ := q
      unfold Column.reset
      rw [hg]
      dsimp only
      rw [hg2]
      rfl
    · intro hlt
      have ht : toI16 c.cells.length = (c.cells.length : Int) := toI16_of_le (by omega)
      unfold Column.reset genRangeI
      rw [ht]
      have htd : ((c.cells.length : Int)).tdiv 2
          = ((c.cells.length / 2 : Nat) : Int) := rfl
      rw [htd, if_pos (by omega)]

/-- Witness for C9: creation succeeds at height 20 and fails at height 9. -/
theorem c9_witness :
    (Column.new 0 20 []).isSome = true ∧ Column.new 0 9 [] = none :=
  ⟨(c9_stream_range_validity 0 20 []).1 (by omega) (by omega),
   (c9_stream_range_validity 0 9 []).2.1 (by omega)⟩

/-- C7: with `speed = 4` and `counter = 0`, each of the first three `update`
calls leaves every cell, `head`, and even the rng untouched and only steps
`counter`; the fourth call advances `head` by one and resets `counter`
(provided the advance stays above the reset threshold and the character
set is non-empty). -/
theorem c7_speed_divisor_throttle (c : Column) (colors : ColorScheme)
    (cs : List Char) (rng : Rng) (hspeed : c.speed = 4) (hcounter : c.counter = 0)
    (hcs : cs ≠ []) (hnr : c.head + 1 < toI16 c.cells.length + c.len) :
    (∀ k : Nat, k ≤ 3 →
      runUpdates c k colors cs rng = some ({ c with counter := (k : Int) }, rng)) ∧
    ∃ c4 rng4, runUpdates c 4 colors cs rng = some (c4, rng4) ∧
      c4.head = c.head + 1 ∧ c4.counter = 0 := by
  obtain ⟨cx, ccells, chead, clen, cspeed, ccnt⟩ := c
  dsimp only at hspeed hcounter hnr
  subst hspeed
  subst hcounter
  have e1 : Column.update ⟨cx, ccells, chead, clen, 4, 0⟩ colors cs rng
      = some (⟨cx, ccells, chead, clen, 4, 0 + 1⟩, rng) := update_early (by norm_num)
  have e2 : Column.update ⟨cx, ccells, chead, clen, 4, 0 + 1⟩ colors cs rng
      = some (⟨cx, ccells, chead, clen, 4, 0 + 1 + 1⟩, rng) := update_early (by norm_num)
  have e3 : Column.update ⟨cx, ccells, chead, clen, 4, 0 + 1 + 1⟩ colors cs rng
      = some (⟨cx, ccells, chead, clen, 4, 0 + 1 + 1 + 1⟩, rng) :=
    update_early (by norm_num)
  obtain ⟨c4, rng4, e4, h4head, h4cnt, _, _, _⟩ :=
    @update_advance ⟨cx, ccells, chead, clen, 4, 0 + 1 + 1 + 1⟩ colors cs rng
      (by norm_num) hcs (by dsimp only; omega)
  constructor
  · intro k hk
    interval_cases k
    · rw [runUpdates_zero]
      norm_num
    · rw [runUpdates_step 0 e1, runUpdates_zero]
      norm_num
    · rw [runUpdates_step 1 e1, runUpdates_step 0 e2, runUpdates_zero]
      norm_num
    · rw [runUpdates_step 2 e1, runUpdates_step 1 e2, runUpdates_step 0 e3,
        runUpdates_zero]
      norm_num
  · refine ⟨c4, rng4, ?_, h4head, h4cnt⟩
    rw [runUpdates_step 3 e1, runUpdates_step 2 e2, runUpdates_step 1 e3,
      runUpdates_step 0 e4, runUpdates_zero]

/-- Witness for C7: the second of four throttled updates only bumps the
counter of a fresh `speed = 4` column. -/
theorem c7_witness :
    runUpdates { sampleColumn with speed := 4 } 2 theme0 englishChars []
      = some ({ sampleColumn with speed := 4, counter := ((2 : Nat) : Int) }, []) :=
  (c7_speed_divisor_throttle { sampleColumn with speed := 4 } theme0 englishChars []
    rfl rfl (by decide) (by decide)).1 2 (by omega)

/-- C1 counterexample: an ignored key (`'x'`) in Matrix mode does NOT
suppress the animation tick: the app stays in Matrix, but the column state
changes and the screen is cleared and redrawn on that very iteration. -/
theorem c1_counterexample :
    (matrixStep app1 (some (KeyCode.char 'x')) []).contState
      = some AppState.Matrix ∧
    (matrixStep app1 (some (KeyCode.char 'x')) []).contColumns
      ≠ some app1.columns ∧
    (matrixStep app1 (some (KeyCode.char 'x')) []).contCleared = some true := by
  refine ⟨by decide, by decide, by decide⟩

/-- C1 (amended): in Matrix state an ignored key behaves exactly like a
poll timeout: the app stays in Matrix and the same animation tick (screen
clear, `update` of every column, redraw) happens on that iteration. -/
theorem c1_ignored_key_ticks (app : App) (k : KeyCode) (rng : Rng)
    (ha : app.app_state = AppState.Matrix)
    (hk : handleMatrixKey AppState.Matrix k = some AppState.Matrix) :
    matrixStep app (some k) rng = matrixStep app none rng ∧
    ∀ a r e, matrixStep app (some k) rng = MatrixOutcome.cont a r e →
      a.app_state = AppState.Matrix ∧ e.cleared = true ∧ e.drew = true ∧
      ∀ colors cs, THEMES.get? app.config.theme_index = some colors →
        (ALL_CHAR_SETS.map Prod.snd).get? app.config.language_index = some cs →
        updateColumns app.columns colors cs rng = some (a.columns, r) := by
  have hstep : matrixStep app (some k) rng = matrixStep app none rng := by
    unfold matrixStep
    dsimp only
    rw [ha, hk]
  refine ⟨hstep, ?_⟩
  intro a r e heq
  unfold matrixStep at heq
  dsimp only at heq
  rw [ha, hk] at heq
  dsimp only at heq
  split at heq
  · next colors0 cs0 hsc1 hsc2 =>
    split at heq
    · exact absurd heq (by simp)
    · next cols2 rng2 hu =>
      cases heq
      refine ⟨rfl, rfl, rfl, ?_⟩
      intro colors cs hθ hφ
      rw [hsc1] at hθ
      obtain rfl := Option.some.inj hθ
      rw [hsc2] at hφ
      obtain rfl := Option.some.inj hφ
      exact hu
  · exact absurd heq (by simp)

/-- Witness for C1: on a concrete one-column app, pressing `'x'` yields the
same outcome as a timeout. -/
theorem c1_witness :
    matrixStep matrixApp (some (KeyCode.char 'x')) [] = matrixStep matrixApp none [] :=
  (c1_ignored_key_ticks matrixApp (KeyCode.char 'x') [] rfl (by decide)).1

/-- C2 counterexample: pressing Space in Matrix mode transitions to Paused,
but on that same iteration the columns ARE advanced and the screen IS
cleared and redrawn (the Matrix arm runs its tick unconditionally). -/
theorem c2_counterexample :
    (matrixStep app1 (some (KeyCode.char ' ')) []).contState
      = some AppState.Paused ∧
    (matrixStep app1 (some (KeyCode.char ' ')) []).contColumns
      ≠ some app1.columns ∧
    (matrixStep app1 (some (KeyCode.char ' ')) []).contCleared = some true := by
  refine ⟨by decide, by decide, by decide⟩

/-- C2 (amended): Space in Matrix state transitions to Paused, but the
iteration still clears the screen and updates and redraws every column
before the Paused state is entered on the next loop turn. -/
theorem c2_pause_transitions_but_ticks (app : App) (rng : Rng)
    (ha : app.app_state = AppState.Matrix) :
    ∀ a r e, matrixStep app (some (KeyCode.char ' ')) rng = MatrixOutcome.cont a r e →
      a.app_state = AppState.Paused ∧ e.cleared = true ∧ e.drew = true ∧
      ∀ colors cs, THEMES.get? app.config.theme_index = some colors →
        (ALL_CHAR_SETS.map Prod.snd).get? app.config.language_index = some cs →
        updateColumns app.columns colors cs rng = some (a.columns, r) := by
  intro a r e heq
  have hk : handleMatrixKey AppState.Matrix (KeyCode.char ' ')
      = some AppState.Paused := by decide
  unfold matrixStep at heq
  dsimp only at heq
  rw [ha, hk] at heq
  dsimp only at heq
  split at heq
  · next colors0 cs0 hsc1 hsc2 =>
    split at heq
    · exact absurd heq (by simp)
    · next cols2 rng2 hu =>
      cases heq
      refine ⟨rfl, rfl, rfl, ?_⟩
      intro colors cs hθ hφ
      rw [hsc1] at hθ
      obtain rfl := Option.some.inj hθ
      rw [hsc2] at hφ
      obtain rfl := Option.some.inj hφ
      exact hu
  · exact absurd heq (by simp)

/-- Witness for C2: on a concrete Matrix-mode app, a Space press continues
into the Paused state. -/
theorem c2_witness : pausedApp.app_state = AppState.Paused :=
  (c2_pause_transitions_but_ticks matrixApp [] rfl pausedApp [] ⟨true, true⟩
    (by decide)).1

/-- C3: in every column state reachable from creation by any sequence of
`update` (with any theme and registered character set) and `reset` calls,
every cell has `lifetime = 0` exactly when its glyph is the blank `' '`. -/
theorem c3_lifetime_zero_iff_blank (x height : Nat) (rng0 rng1 : Rng)
    (c0 c : Column) (hnew : Column.new x height rng0 = some (c0, rng1))
    (hreach : ReachableFrom c0 c) :
    ∀ cell ∈ c.cells, cell.lifetime = 0 ↔ cell.char = ' ' :=
  (reachable_inv hreach (new_inv hnew)).2

/-- Witness for C3 on the freshly created height-20 column. -/
theorem c3_witness : Cell.default.lifetime = 0 ↔ Cell.default.char = ' ' :=
  c3_lifetime_zero_iff_blank 0 20 [5, 0] [] newCol20 newCol20 (by decide)
    (ReachableFrom.refl newCol20) Cell.default (by decide)

end RustyMatrix
